import Mathlib

/-!
Shallow embedding of the P2P auction coordination engine
(`P2PAuctionService.js`, the service core) and its RPC layer (`rpc.js`).

Modelling conventions:
* JavaScript numbers used as timestamps, durations and bid amounts are
  modelled as `Int` (all comparisons in the source are plain `<=` / `>`).
* `Date.now()` is passed in as an explicit `now : Int` argument; a single
  operation is evaluated at one instant.
* The Hyperbee key-value view is modelled as an association list with
  `storeGet` (its `db.get`, first match wins) and `storePut` (its
  `db.put`, which replaces any previous binding for the key).  Every
  `db.put` the service issues is also appended to a `putLog`, so that
  "no write was issued" is expressible.
* `setTimeout`/`clearTimeout` are modelled by a `pending` list of
  (handle, auctionId, fireTime) callbacks and a fresh-handle counter;
  the service's `auctionTimers` Map is an association list from
  auctionId to handle.  `Map.set` replaces the binding for an existing
  key (modelled as remove-then-prepend), `clearTimeout` removes the
  pending callback with the given handle.
* A JavaScript `throw` inside these async methods is modelled as an
  `Except.error`; the distinguished `typeErrorNullValue` error stands
  for the TypeError raised by reading `.value` of a `null` node.
* `undefined` and `null` results are both modelled as `none` (both are
  falsy and are used interchangeably by the callers in the source).
-/

namespace P2PAuction

/-- A bid, as stored in an auction's `bids` array:
`{ bidderName, amount, time: Date.now() }`. -/
structure Bid where
  bidderName : String
  amount : Int
  time : Int
deriving Repr, DecidableEq

/-- The `status` field: the source uses the strings `'active'` and `'ended'`. -/
inductive Status where
  | active
  | ended
deriving Repr, DecidableEq

/-- An auction record as persisted by the service.  `winner`/`winningBid`
are absent (`none`) until the end transition sets them; the source sets
them to the last bid's fields or to `null`. -/
structure Auction where
  item : String
  startPrice : Int
  startTime : Int
  endTime : Int
  bids : List Bid
  status : Status
  winner : Option String
  winningBid : Option Int
deriving Repr, DecidableEq

/-- The errors thrown by the service methods, by message:
`'Auction not found'`, `'Auction is not active'`, `'Auction has ended'`,
`'Bid too low'`, `'Bid must be higher than the current highest bid'`,
and the TypeError from dereferencing `.value` on a `null` db node. -/
inductive AuctionError where
  | notFound
  | notActive
  | expired
  | bidTooLow
  | bidNotHighEnough
  | typeErrorNullValue
deriving Repr, DecidableEq

/-- The Hyperbee key-value view: an association list keyed by auctionId. -/
abbrev Store := List (String × Auction)

/-- `db.get(key)`: the node's value, or `none` when the key is absent. -/
def storeGet (s : Store) (k : String) : Option Auction :=
  (s.find? (fun p => p.1 == k)).map (fun p => p.2)

/-- `db.put(key, value)`: replaces any previous binding for `key`. -/
def storePut (s : Store) (k : String) (v : Auction) : Store :=
  (k, v) :: s.filter (fun p => !(p.1 == k))

/-- The mutable state of one `P2PAuctionService` instance: the db, the
`auctionTimers` Map (auctionId to timer handle), the pending
`setTimeout` callbacks (handle, auctionId, fireTime), a counter for
fresh timer handles, and a log of every `db.put` issued. -/
structure ServiceState where
  db : Store
  auctionTimers : List (String × Nat)
  pending : List (Nat × String × Int)
  nextHandle : Nat
  putLog : List (String × Auction)
deriving Repr, DecidableEq

/-- `await this.db.put(auctionId, auction)`, also recording the write. -/
def dbPutSt (st : ServiceState) (k : String) (v : Auction) : ServiceState :=
  { st with db := storePut st.db k v, putLog := st.putLog ++ [(k, v)] }

/-- `setAuctionTimer(auctionId, duration)`: `setTimeout` schedules a fresh
callback (the prior pending callback for this id, if any, is NOT
cancelled), then `this.auctionTimers.set(auctionId, timer)` replaces the
Map binding for the id. -/
def setAuctionTimer (st : ServiceState) (now : Int) (auctionId : String) (duration : Int) :
    ServiceState :=
  { st with
    pending := st.pending ++ [(st.nextHandle, auctionId, now + duration)],
    auctionTimers :=
      (auctionId, st.nextHandle) :: st.auctionTimers.filter (fun p => !(p.1 == auctionId)),
    nextHandle := st.nextHandle + 1 }

/-- `auction.bids[auction.bids.length - 1]` guarded by
`auction.bids.length > 0`: the last element of the array, if any. -/
def lastBid? : List Bid → Option Bid
  | [] => none
  | [b] => some b
  | _ :: b :: rest => lastBid? (b :: rest)

/-- The mutation `endAuction` applies to an active record: sets
`status = 'ended'` and fills `winner`/`winningBid` from the last bid,
or with `null` when there are no bids. -/
def endTransition (auction : Auction) : Auction :=
  { auction with
    status := Status.ended,
    winner := (lastBid? auction.bids).map Bid.bidderName,
    winningBid := (lastBid? auction.bids).map Bid.amount }

/-- The timer cleanup at the end of `endAuction`: looks the id up in
`auctionTimers`; when present, `clearTimeout(timer)` removes the pending
callback with that handle and the Map entry is deleted. -/
def clearAuctionTimer (st : ServiceState) (auctionId : String) : ServiceState :=
  match st.auctionTimers.find? (fun p => p.1 == auctionId) with
  | some p =>
      { st with
        pending := st.pending.filter (fun q => !(q.1 == p.2)),
        auctionTimers := st.auctionTimers.filter (fun q => !(q.1 == auctionId)) }
  | none => st

/-- `endAuction(auctionId)`.  NOTE the source reads
`auctionNode.value` BEFORE checking for absence, so an absent key makes
the line `const auction = auctionNode.value` throw a TypeError; the
`if (!auction) throw new Error('Auction not found')` guard on the next
line is unreachable for an absent key (`db.get` returns `null`, not a
node with a `null` value). -/
def endAuction (st : ServiceState) (auctionId : String) :
    Except AuctionError Auction × ServiceState :=
  match storeGet st.db auctionId with
  | none => (Except.error AuctionError.typeErrorNullValue, st)
  | some auction =>
    if auction.status ≠ Status.active then (Except.ok auction, st)
    else
      (Except.ok (endTransition auction),
       clearAuctionTimer (dbPutSt st auctionId (endTransition auction)) auctionId)

/-- `getAuction(auctionId)`: `none` when the key is absent.  In the
lazy-expiry branch the source executes
`return this.endAuction(auctionId).value`: `endAuction` runs (its store
mutation is kept) but `.value` read on the Promise object it returns is
`undefined`, so the caller receives no record. -/
def getAuction (st : ServiceState) (now : Int) (auctionId : String) :
    Option Auction × ServiceState :=
  match storeGet st.db auctionId with
  | none => (none, st)
  | some auction =>
    if auction.status = Status.active ∧ now > auction.endTime then
      (none, (endAuction st auctionId).2)
    else
      (some auction, st)

/-- The success path of `placeBid`: appends
`{ bidderName, amount, time: Date.now() }` to `bids` and persists the
full updated record, returning `true`. -/
def acceptBid (st : ServiceState) (now : Int) (auctionId bidderName : String)
    (amount : Int) (auction : Auction) : Except AuctionError Bool × ServiceState :=
  (Except.ok true,
   dbPutSt st auctionId
     { auction with bids := auction.bids ++ [{ bidderName := bidderName, amount := amount, time := now }] })

/-- The validations and the write of `placeBid`, operating on the local
copy `auctionOpt` obtained from `getAuction` (everything after the
`await this.getAuction(auctionId)` suspension point). -/
def placeBidCheckAndWrite (st : ServiceState) (now : Int) (auctionId bidderName : String)
    (amount : Int) (auctionOpt : Option Auction) : Except AuctionError Bool × ServiceState :=
  match auctionOpt with
  | none => (Except.error AuctionError.notFound, st)
  | some auction =>
    if auction.status ≠ Status.active then (Except.error AuctionError.notActive, st)
    else if now > auction.endTime then (Except.error AuctionError.expired, st)
    else if amount ≤ auction.startPrice then (Except.error AuctionError.bidTooLow, st)
    else
      match lastBid? auction.bids with
      | some lastB =>
        if amount ≤ lastB.amount then (Except.error AuctionError.bidNotHighEnough, st)
        else acceptBid st now auctionId bidderName amount auction
      | none => acceptBid st now auctionId bidderName amount auction

/-- `placeBid(auctionId, bidderName, amount)`: reads via `getAuction`,
then validates and writes. -/
def placeBid (st : ServiceState) (now : Int) (auctionId bidderName : String) (amount : Int) :
    Except AuctionError Bool × ServiceState :=
  placeBidCheckAndWrite (getAuction st now auctionId).2 now auctionId bidderName amount
    (getAuction st now auctionId).1

/-- `createAuction(item, startPrice, durationSeconds)`: the source
performs NO validation of its parameters.  The fresh
`crypto.randomUUID()` is modelled as the explicit `auctionId` argument.
Persists the new record, arms a timer, returns the id. -/
def createAuction (st : ServiceState) (now : Int) (auctionId : String)
    (item : String) (startPrice : Int) (durationSeconds : Int) : String × ServiceState :=
  (auctionId,
   setAuctionTimer
     (dbPutSt st auctionId
       { item := item, startPrice := startPrice, startTime := now,
         endTime := now + durationSeconds * 1000, bids := [],
         status := Status.active, winner := none, winningBid := none })
     now auctionId (durationSeconds * 1000))

/-! ### Invariants used by the claims -/

/-- The bids of `a` are strictly increasing in amount. -/
def strictIncr : List Bid → Bool
  | [] => true
  | [_] => true
  | b1 :: b2 :: rest => decide (b1.amount < b2.amount) && strictIncr (b2 :: rest)

/-- Well-formedness of one record's bids: strictly increasing, and every
amount strictly above the start price. -/
def bidsOk (a : Auction) : Bool :=
  strictIncr a.bids && a.bids.all (fun b => decide (a.startPrice < b.amount))

/-- The bids invariant over a whole service state. -/
def stInv (st : ServiceState) : Bool :=
  st.db.all (fun p => bidsOk p.2)

/-- The winner fields an Ended record must carry: the last bid's bidder
and amount, or both `null` when no bids were placed. -/
def winnerSpec (a : Auction) : Prop :=
  a.winner = (lastBid? a.bids).map Bid.bidderName ∧
  a.winningBid = (lastBid? a.bids).map Bid.amount

/-- Number of pending scheduled timer callbacks for one auction id. -/
def pendingFor (st : ServiceState) (auctionId : String) : Nat :=
  (st.pending.filter (fun q => q.2.1 == auctionId)).length

/-- The `auctionTimers` Map lookup. -/
def timerFor (st : ServiceState) (auctionId : String) : Option Nat :=
  (st.auctionTimers.find? (fun p => p.1 == auctionId)).map (fun p => p.2)

/-! ### RPC layer (`rpc.js`) -/

/-- A protocol value carried in `params` / `result` frames. -/
inductive RVal where
  | str (s : String)
  | num (n : Int)
  | boolV (b : Bool)
  | nullV
deriving Repr, DecidableEq

/-- An inbound request frame `{method, params, id}`. -/
structure RpcMessage where
  method : String
  params : List RVal
  id : String
deriving Repr, DecidableEq

/-- The reply body: `{result}` or `{error: message}`. -/
inductive RpcPayload where
  | result (v : RVal)
  | error (msg : String)
deriving Repr, DecidableEq

/-- The reply frame `{id, result}` or `{id, error}`. -/
structure RpcResponse where
  id : String
  payload : RpcPayload
deriving Repr, DecidableEq

/-- A bound handler, applied to the (spread) positional `params`; a
thrown exception is an `Except.error` carrying its message. -/
abbrev Handler := List RVal → Except String RVal

/-- `this.handlers.get(method)` on the table built by `respond`. -/
def getHandler (handlers : List (String × Handler)) (m : String) : Option Handler :=
  (handlers.find? (fun p => p.1 == m)).map (fun p => p.2)

/-- `handleMessage`: dispatches a decoded `{method, params, id}` frame.
A registered handler is invoked with the params; its result or the
caught exception's message is sent back under the same `id`.  An
unregistered method gets the reply `{id, error: 'Method not found'}`. -/
def handleMessage (handlers : List (String × Handler)) (msg : RpcMessage) : RpcResponse :=
  match getHandler handlers msg.method with
  | some handler =>
    match handler msg.params with
    | Except.ok result => { id := msg.id, payload := RpcPayload.result result }
    | Except.error e => { id := msg.id, payload := RpcPayload.error e }
  | none => { id := msg.id, payload := RpcPayload.error "Method not found" }

/-! ### Concrete fixtures used by counterexamples and witnesses -/

/-- A freshly constructed service with an empty db. -/
def stEmpty : ServiceState :=
  { db := [], auctionTimers := [], pending := [], nextHandle := 0, putLog := [] }

/-- An Active record whose deadline (endTime 5) is already past at now = 10. -/
def auctionC1 : Auction :=
  { item := "vase", startPrice := 10, startTime := 0, endTime := 5,
    bids := [], status := Status.active, winner := none, winningBid := none }

def stC1 : ServiceState :=
  { db := [("a1", auctionC1)], auctionTimers := [], pending := [], nextHandle := 0, putLog := [] }

/-- A fresh Active auction, deadline not yet reached at now = 50. -/
def auctionC2 : Auction :=
  { item := "clock", startPrice := 10, startTime := 0, endTime := 100,
    bids := [], status := Status.active, winner := none, winningBid := none }

def stC2 : ServiceState :=
  { db := [("a1", auctionC2)], auctionTimers := [], pending := [], nextHandle := 0, putLog := [] }

/-- An Active auction holding one bid, used to instantiate the invariant
preservation theorem. -/
def auctionC3 : Auction :=
  { item := "lamp", startPrice := 10, startTime := 0, endTime := 100,
    bids := [{ bidderName := "Ann", amount := 15, time := 1 }],
    status := Status.active, winner := none, winningBid := none }

def stC3 : ServiceState :=
  { db := [("a1", auctionC3)], auctionTimers := [], pending := [], nextHandle := 0, putLog := [] }

/-- Expired-but-still-Active record, for the placeBid counterexample. -/
def auctionC4 : Auction :=
  { item := "ring", startPrice := 10, startTime := 0, endTime := 5,
    bids := [], status := Status.active, winner := none, winningBid := none }

def stC4 : ServiceState :=
  { db := [("a1", auctionC4)], auctionTimers := [], pending := [], nextHandle := 0, putLog := [] }

/-- Active auction used to instantiate the placeBid case analysis. -/
def auctionC4w : Auction :=
  { item := "book", startPrice := 10, startTime := 0, endTime := 100,
    bids := [], status := Status.active, winner := none, winningBid := none }

def stC4w : ServiceState :=
  { db := [("a1", auctionC4w)], auctionTimers := [], pending := [], nextHandle := 0, putLog := [] }

/-- Active auction with a bid, used to instantiate End idempotence. -/
def auctionC5 : Auction :=
  { item := "coin", startPrice := 10, startTime := 0, endTime := 100,
    bids := [{ bidderName := "Bea", amount := 20, time := 2 }],
    status := Status.active, winner := none, winningBid := none }

def stC5 : ServiceState :=
  { db := [("a1", auctionC5)], auctionTimers := [("a1", 0)], pending := [(0, "a1", 100)],
    nextHandle := 1, putLog := [] }

/-- An already-Ended record with its winner fields filled, used to
instantiate the no-op theorem. -/
def auctionC10 : Auction :=
  { item := "harp", startPrice := 10, startTime := 0, endTime := 5,
    bids := [{ bidderName := "Cal", amount := 12, time := 3 }],
    status := Status.ended, winner := some "Cal", winningBid := some 12 }

def stC10 : ServiceState :=
  { db := [("a1", auctionC10)], auctionTimers := [], pending := [], nextHandle := 0, putLog := [] }

/-- A small handler table for instantiating the RPC dispatch theorem. -/
def handlersW : List (String × Handler) :=
  [("ping", fun _ => Except.ok (RVal.str "pong")),
   ("boom", fun _ => Except.error "kaboom")]

/-! Interleaved execution of two concurrent `placeBid` calls on the
same auction (Alice at 20, Bob at 30, both at now = 50).  Each call is
the read phase (`getAuction`, up to the `await` suspension point)
followed by the validate-and-write phase on the local copy it read;
the source serializes nothing, so the schedule
read(A), read(B), write(B), write(A) is realizable. -/

def c2ReadA : Option Auction × ServiceState := getAuction stC2 50 "a1"

def c2ReadB : Option Auction × ServiceState := getAuction c2ReadA.2 50 "a1"

def c2WriteB : Except AuctionError Bool × ServiceState :=
  placeBidCheckAndWrite c2ReadB.2 50 "a1" "Bob" 30 c2ReadB.1

def c2WriteA : Except AuctionError Bool × ServiceState :=
  placeBidCheckAndWrite c2WriteB.2 50 "a1" "Alice" 20 c2ReadA.1

instance {ε α : Type} [DecidableEq ε] [DecidableEq α] : DecidableEq (Except ε α)
  | Except.ok a, Except.ok b =>
    if h : a = b then isTrue (by rw [h]) else isFalse (fun hh => h (Except.ok.inj hh))
  | Except.ok _, Except.error _ => isFalse (fun hh => Except.noConfusion hh)
  | Except.error _, Except.ok _ => isFalse (fun hh => Except.noConfusion hh)
  | Except.error e, Except.error f =>
    if h : e = f then isTrue (by rw [h]) else isFalse (fun hh => h (Except.error.inj hh))

/-! ## Helper lemmas -/

/-- `placeBid` is definitionally the read phase (`getAuction`, the
`await` suspension point) followed by the validate-and-write phase. -/
theorem placeBid_eq_read_then_write (st : ServiceState) (now : Int)
    (auctionId bidderName : String) (amount : Int) :
    placeBid st now auctionId bidderName amount =
      placeBidCheckAndWrite (getAuction st now auctionId).2 now auctionId bidderName amount
        (getAuction st now auctionId).1 := rfl

/-- Reading back the key just written. -/
theorem storeGet_storePut_self (s : Store) (k : String) (v : Auction) :
    storeGet (storePut s k v) k = some v := by
  simp [storeGet, storePut, List.find?]

/-- A successful lookup exhibits a member of the association list. -/
theorem mem_of_storeGet_eq_some {s : Store} {k : String} {a : Auction}
    (h : storeGet s k = some a) : (k, a) ∈ s := by
  unfold storeGet at h
  cases hf : s.find? (fun p => p.1 == k) with
  | none => rw [hf] at h; cases h
  | some p =>
    rw [hf] at h
    have hm := List.mem_of_find?_eq_some hf
    have hp := List.find?_some hf
    have hk : p.1 = k := by simpa using hp
    cases h
    rw [← hk, Prod.mk.eta]
    exact hm

/-- The source's `bids[bids.length - 1]` skips the head. -/
theorem lastBid?_cons_cons (b1 b2 : Bid) (rest : List Bid) :
    lastBid? (b1 :: b2 :: rest) = lastBid? (b2 :: rest) := rfl

/-- Appending a bid strictly above the last one keeps the sequence
strictly increasing. -/
theorem strictIncr_append (x : Bid) :
    ∀ bs : List Bid, strictIncr bs = true →
      (∀ lb, lastBid? bs = some lb → lb.amount < x.amount) →
      strictIncr (bs ++ [x]) = true
  | [], _, _ => by simp [strictIncr]
  | [b], _, hl => by
      simp only [List.cons_append, List.nil_append, strictIncr, Bool.and_eq_true,
        decide_eq_true_eq]
      exact ⟨hl b rfl, trivial⟩
  | b1 :: b2 :: rest, h, hl => by
      have hh : (decide (b1.amount < b2.amount) && strictIncr (b2 :: rest)) = true := h
      rw [Bool.and_eq_true] at hh
      obtain ⟨h1, h2⟩ := hh
      have ih := strictIncr_append x (b2 :: rest) h2
        (fun lb hlb => hl lb ((lastBid?_cons_cons b1 b2 rest).symm ▸ hlb))
      show (decide (b1.amount < b2.amount) && strictIncr (b2 :: (rest ++ [x]))) = true
      rw [h1]
      simpa using ih

/-- Appending a bid above the start price and above the last bid
preserves per-record well-formedness. -/
theorem bidsOk_append (a : Auction) (name : String) (amt t : Int)
    (h : bidsOk a = true) (hsp : a.startPrice < amt)
    (hl : ∀ lb, lastBid? a.bids = some lb → lb.amount < amt) :
    bidsOk { a with bids := a.bids ++ [{ bidderName := name, amount := amt, time := t }] } = true := by
  rw [bidsOk, Bool.and_eq_true] at h
  obtain ⟨h1, h2⟩ := h
  show (strictIncr (a.bids ++ [({ bidderName := name, amount := amt, time := t } : Bid)]) &&
        (a.bids ++ [({ bidderName := name, amount := amt, time := t } : Bid)]).all
          (fun b => decide (a.startPrice < b.amount))) = true
  rw [Bool.and_eq_true]
  refine ⟨strictIncr_append _ _ h1 hl, ?_⟩
  rw [List.all_append, Bool.and_eq_true]
  refine ⟨h2, ?_⟩
  simpa using hsp

/-- A persisted record that is well-formed keeps the store invariant. -/
theorem stInv_dbPut (st : ServiceState) (k : String) (v : Auction)
    (h : stInv st = true) (hv : bidsOk v = true) : stInv (dbPutSt st k v) = true := by
  rw [stInv, List.all_eq_true] at h ⊢
  intro p hp
  rcases List.mem_cons.mp hp with rfl | hp'
  · exact hv
  · exact h _ (List.mem_of_mem_filter hp')

/-- Every record read back from an invariant-satisfying store is
well-formed. -/
theorem bidsOk_of_stInv {st : ServiceState} {k : String} {a : Auction}
    (h : stInv st = true) (hget : storeGet st.db k = some a) : bidsOk a = true := by
  rw [stInv, List.all_eq_true] at h
  simpa using h _ (mem_of_storeGet_eq_some hget)

/-- The end transition does not touch `bids` or `startPrice`. -/
theorem bidsOk_endTransition (a : Auction) : bidsOk (endTransition a) = bidsOk a := rfl

/-- Timer cleanup does not touch the db. -/
theorem stInv_clearAuctionTimer (st : ServiceState) (auctionId : String) :
    stInv (clearAuctionTimer st auctionId) = stInv st := by
  unfold clearAuctionTimer
  split <;> rfl

/-- `endAuction` preserves the store invariant. -/
theorem stInv_endAuction (st : ServiceState) (auctionId : String) (h : stInv st = true) :
    stInv (endAuction st auctionId).2 = true := by
  unfold endAuction
  split
  · exact h
  next a hget =>
    split
    · exact h
    · rw [stInv_clearAuctionTimer]
      exact stInv_dbPut _ _ _ h ((bidsOk_endTransition a).symm ▸ bidsOk_of_stInv h hget)

/-- `getAuction` preserves the store invariant. -/
theorem stInv_getAuction (st : ServiceState) (now : Int) (auctionId : String)
    (h : stInv st = true) : stInv (getAuction st now auctionId).2 = true := by
  unfold getAuction
  split
  · exact h
  · split
    · exact stInv_endAuction _ _ h
    · exact h

/-- When `getAuction` hands back a record, it is exactly the stored one
and the state was left untouched. -/
theorem getAuction_eq_some {st : ServiceState} {now : Int} {auctionId : String}
    {a : Auction} {st2 : ServiceState}
    (h : getAuction st now auctionId = (some a, st2)) :
    storeGet st.db auctionId = some a ∧ st2 = st := by
  unfold getAuction at h
  split at h
  · simp at h
  next b hget =>
    split at h
    · simp at h
    · rw [Prod.mk.injEq] at h
      obtain ⟨h1, h2⟩ := h
      cases h1
      exact ⟨hget, h2.symm⟩

/-- Timer cleanup does not touch the db (as a field equation). -/
theorem db_clearAuctionTimer (st : ServiceState) (auctionId : String) :
    (clearAuctionTimer st auctionId).db = st.db := by
  unfold clearAuctionTimer
  split <;> rfl

/-- Arming a timer does not touch the db, so the invariant is a
congruence across it. -/
theorem stInv_setAuctionTimer (st : ServiceState) (now : Int) (auctionId : String) (d : Int) :
    stInv (setAuctionTimer st now auctionId d) = stInv st := rfl

/-- `endAuction` never modifies the `bids` of the stored record. -/
theorem endAuction_bids (st : ServiceState) (auctionId : String) (a : Auction)
    (hget : storeGet st.db auctionId = some a) :
    Option.map Auction.bids (storeGet (endAuction st auctionId).2.db auctionId) = some a.bids := by
  unfold endAuction
  split
  next hnone => rw [hnone] at hget; cases hget
  next b hsome =>
    have hba : b = a := Option.some.inj (hsome.symm.trans hget)
    subst hba
    split
    · rw [hget]; rfl
    · show Option.map Auction.bids
          (storeGet (clearAuctionTimer (dbPutSt st auctionId (endTransition b)) auctionId).db
            auctionId) = some b.bids
      rw [db_clearAuctionTimer]
      show Option.map Auction.bids
          (storeGet (storePut st.db auctionId (endTransition b)) auctionId) = some b.bids
      rw [storeGet_storePut_self]
      rfl

/-- `getAuction` never modifies the `bids` of the stored record. -/
theorem getAuction_bids (st : ServiceState) (now : Int) (auctionId : String) (a : Auction)
    (hget : storeGet st.db auctionId = some a) :
    Option.map Auction.bids (storeGet (getAuction st now auctionId).2.db auctionId) = some a.bids := by
  unfold getAuction
  split
  next hnone => rw [hnone] at hget; cases hget
  next b hsome =>
    split
    · exact endAuction_bids st auctionId a hget
    · show Option.map Auction.bids (storeGet st.db auctionId) = some a.bids
      rw [hget]
      rfl

/-- Reduction of `getAuction` on an absent key. -/
theorem getAuction_absent (st : ServiceState) (now : Int) (auctionId : String)
    (h : storeGet st.db auctionId = none) :
    getAuction st now auctionId = (none, st) := by
  unfold getAuction
  simp only [h]

/-- Reduction of `getAuction` on an expired Active record (the lazy
expiry branch). -/
theorem getAuction_lazy (st : ServiceState) (now : Int) (auctionId : String) (a : Auction)
    (hget : storeGet st.db auctionId = some a)
    (hs : a.status = Status.active) (ht : now > a.endTime) :
    getAuction st now auctionId = (none, (endAuction st auctionId).2) := by
  unfold getAuction
  simp only [hget]
  rw [if_pos ⟨hs, ht⟩]

/-- Reduction of `getAuction` on a record the lazy-expiry branch does
not apply to. -/
theorem getAuction_live (st : ServiceState) (now : Int) (auctionId : String) (a : Auction)
    (hget : storeGet st.db auctionId = some a)
    (hcond : ¬ (a.status = Status.active ∧ now > a.endTime)) :
    getAuction st now auctionId = (some a, st) := by
  unfold getAuction
  simp only [hget]
  rw [if_neg hcond]

/-- `placeBid` preserves the store invariant. -/
theorem stInv_placeBid (st : ServiceState) (now : Int) (auctionId bidderName : String)
    (amount : Int) (h : stInv st = true) :
    stInv (placeBid st now auctionId bidderName amount).2 = true := by
  rw [placeBid_eq_read_then_write]
  cases hg : getAuction st now auctionId with
  | mk aOpt st1 =>
    have hInv1 : stInv st1 = true := by
      have hh := stInv_getAuction st now auctionId h
      rw [hg] at hh
      exact hh
    cases aOpt with
    | none => simpa [placeBidCheckAndWrite] using hInv1
    | some a =>
      have hga := getAuction_eq_some hg
      have hOk : bidsOk a = true := bidsOk_of_stInv h hga.1
      show stInv (placeBidCheckAndWrite st1 now auctionId bidderName amount (some a)).2 = true
      simp only [placeBidCheckAndWrite]
      split
      · exact hInv1
      · split
        · exact hInv1
        · split
          · exact hInv1
          next hnotLow =>
            split
            next lastB hlast =>
              split
              · exact hInv1
              next hnotLe =>
                exact stInv_dbPut _ _ _ hInv1
                  (bidsOk_append a bidderName amount now hOk (by omega)
                    (fun lb hlb => by
                      rw [hlast] at hlb
                      cases hlb
                      omega))
            next hnone =>
              exact stInv_dbPut _ _ _ hInv1
                (bidsOk_append a bidderName amount now hOk (by omega)
                  (fun lb hlb => by rw [hnone] at hlb; cases hlb))

/-- Filtering for a key after having filtered it away yields nothing. -/
theorem filter_after_filter_not (l : List (String × Nat)) (auctionId : String) :
    (l.filter (fun p => !(p.1 == auctionId))).filter (fun p => p.1 == auctionId) = [] := by
  induction l with
  | nil => rfl
  | cons x xs ih =>
    by_cases h : (x.1 == auctionId) = true
    · simp [List.filter_cons, h, ih]
    · simp [List.filter_cons, h, ih]

/-! ## Claim theorems -/

/-- Claim C1 (code bug): on an auctionId whose stored record is Active
with endTime strictly below the current time, `getAuction` does perform
the End transition on the store (the record is Ended afterwards), but
the value handed back to the caller is `none` (the source returns
`.value` of the Promise object, which is `undefined`), not the
resulting Ended record as the claim requires. -/
theorem getAuction_lazyExpiry_returns_none :
    (getAuction stC1 10 "a1").1 = none ∧
    Option.map Auction.status (storeGet (getAuction stC1 10 "a1").2.db "a1") =
      some Status.ended := by
  decide

/-- Claim C2 (code bug): nothing serializes the two read-modify-write
sequences, so under the schedule read(A), read(B), write(B), write(A)
both bids are accepted (`true` returned to both callers) while the
final record holds only Alice's 20 — Bob's accepted 30 was silently
overwritten.  The last conjunct shows the serialized execution of the
same second call would instead be rejected. -/
theorem placeBid_interleaving_lost_update :
    c2WriteB.1 = Except.ok true ∧
    c2WriteA.1 = Except.ok true ∧
    Option.map (fun a => a.bids.map Bid.amount) (storeGet c2WriteA.2.db "a1") = some [20] ∧
    (placeBid c2WriteB.2 50 "a1" "Alice" 20).1 = Except.error AuctionError.bidNotHighEnough := by
  decide

/-- Claim C6 (code bug): `endAuction` on an absent auctionId throws the
TypeError from reading `.value` of `null`, not the named
`'Auction not found'` failure the claim requires; the NotFound guard on
the following source line is unreachable. -/
theorem endAuction_absent_typeError :
    endAuction stEmpty "missing" = (Except.error AuctionError.typeErrorNullValue, stEmpty) ∧
    AuctionError.typeErrorNullValue ≠ AuctionError.notFound := by
  decide

/-- Claim C7 (code bug): `createAuction` performs no validation at all:
an empty item, a negative start price and a non-positive duration are
persisted as-is and an auctionId is returned, where the claim requires
a ValidationError and no persisted record. -/
theorem createAuction_persists_malformed :
    (createAuction stEmpty 7 "id1" "" (-5) 0).1 = "id1" ∧
    storeGet (createAuction stEmpty 7 "id1" "" (-5) 0).2.db "id1" =
      some { item := "", startPrice := -5, startTime := 7, endTime := 7,
             bids := [], status := Status.active, winner := none, winningBid := none } := by
  decide

/-- Claim C8 counterexample: arming a timer twice for the same id
leaves TWO pending scheduled End callbacks — `setAuctionTimer` replaces
the Map entry but never cancels the prior `setTimeout`. -/
theorem setAuctionTimer_twice_two_pending :
    pendingFor (setAuctionTimer (setAuctionTimer stEmpty 0 "a1" 100) 0 "a1" 200) "a1" = 2 := by
  decide

/-- Claim C8 (amended): `Arm(id, delayMs)` schedules End(id) after
`delayMs` and replaces the MAP ENTRY for `id` (the mapping keeps a
single, most recent, timer handle per id), but it does not cancel the
prior pending callback: the pending list grows by exactly one and keeps
every earlier entry. -/
theorem setAuctionTimer_amended (st : ServiceState) (now : Int) (auctionId : String) (d : Int) :
    timerFor (setAuctionTimer st now auctionId d) auctionId = some st.nextHandle ∧
    (List.filter (fun p => p.1 == auctionId)
      (setAuctionTimer st now auctionId d).auctionTimers).length = 1 ∧
    (setAuctionTimer st now auctionId d).pending =
      st.pending ++ [(st.nextHandle, auctionId, now + d)] := by
  refine ⟨?_, ?_, rfl⟩
  · simp [timerFor, setAuctionTimer, List.find?]
  · show (List.filter (fun p => p.1 == auctionId)
        ((auctionId, st.nextHandle) ::
          st.auctionTimers.filter (fun p => !(p.1 == auctionId)))).length = 1
    rw [List.filter_cons]
    simp only [beq_self_eq_true, if_pos]
    rw [filter_after_filter_not]
    rfl

/-- Claim C8 witness: the amended statement evaluated on a concrete
arm. -/
theorem setAuctionTimer_amended_witness :
    timerFor (setAuctionTimer stEmpty 0 "a1" 100) "a1" = some 0 ∧
    (List.filter (fun p => p.1 == "a1")
      (setAuctionTimer stEmpty 0 "a1" 100).auctionTimers).length = 1 ∧
    (setAuctionTimer stEmpty 0 "a1" 100).pending = [(0, "a1", 100)] :=
  setAuctionTimer_amended stEmpty 0 "a1" 100

/-- Claim C10: `endAuction` on a record already marked Ended returns it
unchanged, leaves the whole state (db, timers, put log) untouched and
issues no put. -/
theorem endAuction_ended_noop (st : ServiceState) (auctionId : String) (a : Auction)
    (hget : storeGet st.db auctionId = some a) (hst : a.status = Status.ended) :
    endAuction st auctionId = (Except.ok a, st) := by
  unfold endAuction
  simp only [hget]
  rw [if_pos (by rw [hst]; decide)]

/-- Claim C10 witness: the no-op on a concrete Ended record. -/
theorem endAuction_ended_noop_witness :
    endAuction stC10 "a1" = (Except.ok auctionC10, stC10) :=
  endAuction_ended_noop stC10 "a1" auctionC10 (by decide) (by decide)

/-- Claim C3: the bids invariant (strictly increasing amounts, all
strictly above startPrice) is preserved by every operation: Create
persists an empty-bids record, PlaceBid only appends an amount strictly
above both bounds, Get and End never modify bids. -/
theorem operations_preserve_invariant (st : ServiceState) (hInv : stInv st = true)
    (now : Int) (newId item auctionId bidderName : String)
    (startPrice amount durationSeconds : Int) :
    stInv (createAuction st now newId item startPrice durationSeconds).2 = true ∧
    storeGet (createAuction st now newId item startPrice durationSeconds).2.db newId =
      some { item := item, startPrice := startPrice, startTime := now,
             endTime := now + durationSeconds * 1000, bids := [], status := Status.active,
             winner := none, winningBid := none } ∧
    stInv (placeBid st now auctionId bidderName amount).2 = true ∧
    stInv (getAuction st now auctionId).2 = true ∧
    stInv (endAuction st auctionId).2 = true ∧
    (∀ a, storeGet st.db auctionId = some a →
      Option.map Auction.bids (storeGet (getAuction st now auctionId).2.db auctionId) =
        some a.bids) ∧
    (∀ a, storeGet st.db auctionId = some a →
      Option.map Auction.bids (storeGet (endAuction st auctionId).2.db auctionId) =
        some a.bids) := by
  refine ⟨?_, ?_, stInv_placeBid _ _ _ _ _ hInv, stInv_getAuction _ _ _ hInv,
    stInv_endAuction _ _ hInv, fun a hget => getAuction_bids _ _ _ _ hget,
    fun a hget => endAuction_bids _ _ _ hget⟩
  · simp only [createAuction]
    rw [stInv_setAuctionTimer]
    exact stInv_dbPut _ _ _ hInv rfl
  · simp only [createAuction]
    exact storeGet_storePut_self _ _ _

/-- Claim C3 witness: invariant preservation instantiated on a concrete
store that satisfies the invariant. -/
theorem operations_preserve_invariant_witness :
    stInv (placeBid stC3 50 "a1" "Bob" 30).2 = true ∧
    stInv (endAuction stC3 "a1").2 = true :=
  ⟨(operations_preserve_invariant stC3 (by decide) 50 "n1" "pen" "a1" "Bob" 5 30 60).2.2.1,
   (operations_preserve_invariant stC3 (by decide) 50 "n1" "pen" "a1" "Bob" 5 30 60).2.2.2.2.1⟩

/-- Claim C4 counterexample: on an Active record whose deadline is past,
`placeBid` fails with `'Auction not found'` (the lazy-expiry read hands
back `undefined`), not with the Expired failure the claim states. -/
theorem placeBid_expired_not_expiredError :
    (placeBid stC4 10 "a1" "Bob" 50).1 = Except.error AuctionError.notFound ∧
    AuctionError.notFound ≠ AuctionError.expired := by
  decide

/-- Claim C4 (amended): `placeBid` fails with NotFound if no record
exists, or if the record is Active with `now > endTime` (the
lazy-expiry read returns no record); with NotActive if status is Ended;
with BidTooLow if `amount ≤ startPrice`; with BidNotHighEnough if bids
is non-empty and `amount ≤` the last bid's amount; and in exactly the
remaining cases appends `{bidderName, amount, now}`, persists the full
updated record, and returns true. -/
theorem placeBid_cases (st : ServiceState) (now : Int) (auctionId bidderName : String)
    (amount : Int) :
    (storeGet st.db auctionId = none →
      placeBid st now auctionId bidderName amount = (Except.error AuctionError.notFound, st)) ∧
    (∀ a, storeGet st.db auctionId = some a → a.status = Status.active → now > a.endTime →
      placeBid st now auctionId bidderName amount =
        (Except.error AuctionError.notFound, (endAuction st auctionId).2)) ∧
    (∀ a, storeGet st.db auctionId = some a → a.status = Status.ended →
      placeBid st now auctionId bidderName amount = (Except.error AuctionError.notActive, st)) ∧
    (∀ a, storeGet st.db auctionId = some a → a.status = Status.active → ¬ now > a.endTime →
      amount ≤ a.startPrice →
      placeBid st now auctionId bidderName amount = (Except.error AuctionError.bidTooLow, st)) ∧
    (∀ a lb, storeGet st.db auctionId = some a → a.status = Status.active → ¬ now > a.endTime →
      ¬ amount ≤ a.startPrice → lastBid? a.bids = some lb → amount ≤ lb.amount →
      placeBid st now auctionId bidderName amount =
        (Except.error AuctionError.bidNotHighEnough, st)) ∧
    (∀ a, storeGet st.db auctionId = some a → a.status = Status.active → ¬ now > a.endTime →
      ¬ amount ≤ a.startPrice → (∀ lb, lastBid? a.bids = some lb → lb.amount < amount) →
      placeBid st now auctionId bidderName amount =
        (Except.ok true,
         dbPutSt st auctionId
           { a with bids :=
               a.bids ++ [{ bidderName := bidderName, amount := amount, time := now }] })) := by
  refine ⟨?_, ?_, ?_, ?_, ?_, ?_⟩
  · intro h
    rw [placeBid_eq_read_then_write, getAuction_absent st now auctionId h]
    rfl
  · intro a hget hs ht
    rw [placeBid_eq_read_then_write, getAuction_lazy st now auctionId a hget hs ht]
    rfl
  · intro a hget hs
    rw [placeBid_eq_read_then_write, getAuction_live st now auctionId a hget (by simp [hs])]
    show placeBidCheckAndWrite st now auctionId bidderName amount (some a) = _
    simp only [placeBidCheckAndWrite]
    rw [if_pos (by rw [hs]; decide)]
  · intro a hget hs ht hlow
    rw [placeBid_eq_read_then_write,
      getAuction_live st now auctionId a hget (fun hc => ht hc.2)]
    show placeBidCheckAndWrite st now auctionId bidderName amount (some a) = _
    simp only [placeBidCheckAndWrite]
    rw [if_neg (by rw [hs]; decide), if_neg ht, if_pos hlow]
  · intro a lb hget hs ht hlow hlast hle
    rw [placeBid_eq_read_then_write,
      getAuction_live st now auctionId a hget (fun hc => ht hc.2)]
    show placeBidCheckAndWrite st now auctionId bidderName amount (some a) = _
    simp only [placeBidCheckAndWrite]
    rw [if_neg (by rw [hs]; decide), if_neg ht, if_neg hlow]
    simp only [hlast]
    rw [if_pos hle]
  · intro a hget hs ht hlow hlast
    rw [placeBid_eq_read_then_write,
      getAuction_live st now auctionId a hget (fun hc => ht hc.2)]
    show placeBidCheckAndWrite st now auctionId bidderName amount (some a) = _
    simp only [placeBidCheckAndWrite]
    rw [if_neg (by rw [hs]; decide), if_neg ht, if_neg hlow]
    cases hl : lastBid? a.bids with
    | none => simp only [hl]; rfl
    | some lb =>
      simp only [hl]
      rw [if_neg (by have := hlast lb hl; omega)]
      rfl

/-- Claim C4 witness: the amended success case on a concrete Active
record with an acceptable bid. -/
theorem placeBid_cases_witness :
    placeBid stC4w 50 "a1" "Bob" 30 =
      (Except.ok true,
       dbPutSt stC4w "a1"
         { auctionC4w with bids := [{ bidderName := "Bob", amount := 30, time := 50 }] }) :=
  (placeBid_cases stC4w 50 "a1" "Bob" 30).2.2.2.2.2 auctionC4w (by decide) (by decide)
    (by decide) (by decide) (fun lb hlb => by simp [auctionC4w, lastBid?] at hlb)

/-- Claim C5: on every auctionId holding a record (whose winner fields
conform when it is already Ended, as every record the service writes
does), `endAuction` twice in sequence returns the identical record the
second time, the second call is a no-op on the state, the record is
Ended, and winner/winningBid are the last bid's bidder and amount, or
null/null for an empty bid list. -/
theorem endAuction_idempotent (st : ServiceState) (auctionId : String) (a : Auction)
    (hget : storeGet st.db auctionId = some a)
    (hwf : a.status = Status.ended → winnerSpec a) :
    ∃ e : Auction,
      (endAuction st auctionId).1 = Except.ok e ∧
      endAuction (endAuction st auctionId).2 auctionId = (Except.ok e, (endAuction st auctionId).2) ∧
      e.status = Status.ended ∧ winnerSpec e := by
  cases hs : a.status with
  | ended =>
    have hnoop := endAuction_ended_noop st auctionId a hget hs
    refine ⟨a, by rw [hnoop], ?_, hs, hwf hs⟩
    rw [hnoop]
    exact hnoop
  | active =>
    have h1 : endAuction st auctionId =
        (Except.ok (endTransition a),
         clearAuctionTimer (dbPutSt st auctionId (endTransition a)) auctionId) := by
      unfold endAuction
      simp only [hget]
      rw [if_neg (by rw [hs]; decide)]
    have hget1 : storeGet (clearAuctionTimer (dbPutSt st auctionId (endTransition a))
        auctionId).db auctionId = some (endTransition a) := by
      rw [db_clearAuctionTimer]
      exact storeGet_storePut_self _ _ _
    have h2 := endAuction_ended_noop _ auctionId (endTransition a) hget1 rfl
    refine ⟨endTransition a, by rw [h1], ?_, rfl, ⟨rfl, rfl⟩⟩
    rw [h1]
    exact h2

/-- Claim C5 witness: idempotence evaluated on a concrete Active
auction holding one bid. -/
theorem endAuction_idempotent_witness :
    ∃ e : Auction,
      (endAuction stC5 "a1").1 = Except.ok e ∧
      endAuction (endAuction stC5 "a1").2 "a1" = (Except.ok e, (endAuction stC5 "a1").2) ∧
      e.status = Status.ended ∧ winnerSpec e :=
  endAuction_idempotent stC5 "a1" auctionC5 (by decide) (fun hcontr => absurd hcontr (by decide))

/-- Claim C9: `handleMessage` invokes the registered handler for the
message's method on its params and replies `{id, result}` on success
and `{id, error: message}` on a raised failure (the exception is caught
and turned into a reply, the dispatcher being a total function); an
unregistered method gets `{id, error: 'Method not found'}`. -/
theorem handleMessage_spec (handlers : List (String × Handler)) (msg : RpcMessage) :
    (∀ h, getHandler handlers msg.method = some h →
      (∀ r, h msg.params = Except.ok r →
        handleMessage handlers msg = { id := msg.id, payload := RpcPayload.result r }) ∧
      (∀ e, h msg.params = Except.error e →
        handleMessage handlers msg = { id := msg.id, payload := RpcPayload.error e })) ∧
    (getHandler handlers msg.method = none →
      handleMessage handlers msg =
        { id := msg.id, payload := RpcPayload.error "Method not found" }) := by
  constructor
  · intro h hh
    constructor
    · intro r hr
      unfold handleMessage
      simp only [hh, hr]
    · intro e he
      unfold handleMessage
      simp only [hh, he]
  · intro hnone
    unfold handleMessage
    simp only [hnone]

/-- Claim C9 witness: dispatch evaluated on a concrete handler table
for the success, raised-failure and unregistered-method cases. -/
theorem handleMessage_spec_witness :
    handleMessage handlersW { method := "ping", params := [], id := "r1" } =
      { id := "r1", payload := RpcPayload.result (RVal.str "pong") } ∧
    handleMessage handlersW { method := "boom", params := [], id := "r2" } =
      { id := "r2", payload := RpcPayload.error "kaboom" } ∧
    handleMessage handlersW { method := "nope", params := [], id := "r3" } =
      { id := "r3", payload := RpcPayload.error "Method not found" } :=
  ⟨((handleMessage_spec handlersW { method := "ping", params := [], id := "r1" }).1
      (fun _ => Except.ok (RVal.str "pong")) rfl).1 (RVal.str "pong") rfl,
   ((handleMessage_spec handlersW { method := "boom", params := [], id := "r2" }).1
      (fun _ => Except.error "kaboom") rfl).2 "kaboom" rfl,
   (handleMessage_spec handlersW { method := "nope", params := [], id := "r3" }).2 rfl⟩

end P2PAuction
